import Mathlib

/-!
Verification development for the feedback-board post router
(`postRouter` in the repository's server code): record projections,
anonymization post-processing, filter predicates, cursor pagination,
read-tracking counters, `byId`, `add` and `setRead`.

The relational store (Prisma client) is modelled as explicit lists of
rows; each query of the source becomes a pure function over that state.
Machine strings and timestamps are `String` and `Nat`.
-/

namespace FeedbackBoard

/-- Minimal author info selected by both projections
(`author: { select: { image, name } }`); both columns are nullable in the
underlying `User` table, hence `Option`. -/
structure PostAuthor where
  name : Option String
  image : Option String
  deriving DecidableEq

/-- Minimal user info embedded in a read-marker entry
(`readBy.select.user.select: { id, name }`). -/
structure ReadByUser where
  id : String
  name : Option String
  deriving DecidableEq

/-- One entry of the `readBy` list of a projected post: just the marking
user (`readBy.select: { user: ... }`). -/
structure ReadByEntry where
  user : ReadByUser
  deriving DecidableEq

/-- The `_count: { select: { comments: true } }` summary of
`defaultPostSelect`. -/
structure CountSel where
  comments : Nat
  deriving DecidableEq

/-- Comment author info selected by `withCommentsPostSelect`
(`comments.select.author.select: { id, name, image }`). -/
structure CommentAuthor where
  id : String
  name : Option String
  image : Option String
  deriving DecidableEq

/-- One projected comment of `withCommentsPostSelect.comments.select`. -/
structure CommentRecord where
  id : String
  content : String
  contentHtml : String
  createdAt : Nat
  author : CommentAuthor
  deriving DecidableEq

/-- Payload type of a post fetched with `withCommentsPostSelect`
(the source's `MyPostPayload`): the `defaultPostSelect` columns plus the
ordered `comments` list. -/
structure MyPostPayload where
  id : String
  title : String
  content : String
  contentHtml : String
  createdAt : Nat
  updatedAt : Nat
  anonymous : Bool
  authorId : String
  author : PostAuthor
  readBy : List ReadByEntry
  count : CountSel
  comments : List CommentRecord
  deriving DecidableEq

/-- Payload type of a post fetched with `defaultPostSelect`: as
`MyPostPayload` but without the `comments` list. -/
structure DefaultPostRecord where
  id : String
  title : String
  content : String
  contentHtml : String
  createdAt : Nat
  updatedAt : Nat
  anonymous : Bool
  authorId : String
  author : PostAuthor
  readBy : List ReadByEntry
  count : CountSel
  deriving DecidableEq

/-- Output type of `processFeedbackItem`: the `MyPostPayload` fields with
`authorId` destructured away (`{ authorId, ...item }`) and `readBy`
re-keyed into a mapping (insertion-ordered, as a JS object is). -/
structure ProcessedPost where
  id : String
  title : String
  content : String
  contentHtml : String
  createdAt : Nat
  updatedAt : Nat
  anonymous : Bool
  author : PostAuthor
  readBy : List (String × ReadByEntry)
  count : CountSel
  comments : List CommentRecord
  deriving DecidableEq

/-- Insert-or-replace into an insertion-ordered key/value mapping: a JS
object assignment `obj[k] = v`. An existing key keeps its position and
gets the new value; a new key is appended. -/
def assocSet {α : Type} : List (String × α) → String → α → List (String × α)
  | [], k, v => [(k, v)]
  | (k1, v1) :: rest, k, v =>
      if k1 = k then (k, v) :: rest else (k1, v1) :: assocSet rest k v

/-- lodash `keyBy(collection, 'user.id')` specialised to the iteratee
used by the source: builds an insertion-ordered mapping keyed by the
extracted key; on duplicate keys the last element wins, the key keeping
its first position (JS object semantics). -/
def keyBy {α : Type} (l : List α) (key : α → String) : List (String × α) :=
  l.foldl (fun acc x => assocSet acc (key x) x) []

/-- Function `processFeedbackItem`: destructures `authorId` off the payload; when
`anonymous` is set, overwrites the author name with `'Anonymous'` and
nulls the image, appending `' (you)'` when the true author is the
viewer; re-keys `readBy` with `keyBy(item.readBy, 'user.id')`. -/
def processFeedbackItem (p : MyPostPayload) (sessionUserId : String) : ProcessedPost :=
  let author :=
    if p.anonymous then
      let anon : PostAuthor := { name := some "Anonymous", image := none }
      if p.authorId = sessionUserId then
        { anon with name := anon.name.map (fun n => n ++ " (you)") }
      else anon
    else p.author
  { id := p.id
    title := p.title
    content := p.content
    contentHtml := p.contentHtml
    createdAt := p.createdAt
    updatedAt := p.updatedAt
    anonymous := p.anonymous
    author := author
    readBy := keyBy p.readBy (fun e => e.user.id)
    count := p.count
    comments := p.comments }

/-! ## Store model

The external relational store, as lists of rows of the tables the router
touches: `Post`, `Comment`, `ReadPosts` (the read-marker table, accessed
as `ctx.prisma.readPosts`) and `User`. -/

/-- A `Post` row, with the columns the router reads: the projected
columns plus `published` and `hidden` used by filters and counts. -/
structure DbPost where
  id : String
  title : String
  content : String
  contentHtml : String
  createdAt : Nat
  updatedAt : Nat
  anonymous : Bool
  authorId : String
  published : Bool
  hidden : Bool
  deriving DecidableEq

/-- A `Comment` row (columns used by projections and filters). -/
structure DbComment where
  id : String
  postId : String
  authorId : String
  content : String
  contentHtml : String
  createdAt : Nat
  deriving DecidableEq

/-- A `ReadPosts` row: the read-marker for a (user, post) pair, with the
`updatedAt` timestamp the `readBy` projection orders by. -/
structure DbReadPost where
  userId : String
  postId : String
  updatedAt : Nat
  deriving DecidableEq

/-- A `User` row (columns used by projections). -/
structure DbUser where
  id : String
  name : Option String
  image : Option String
  deriving DecidableEq

/-- The store state. -/
structure Db where
  posts : List DbPost
  comments : List DbComment
  readPosts : List DbReadPost
  users : List DbUser
  deriving DecidableEq

/-- Resolve a relation to the `User` table by id; a dangling reference
(impossible under the store's referential integrity) resolves to an
absent user with null columns. -/
def lookupUser (db : Db) (uid : String) : DbUser :=
  (db.users.find? (fun u => u.id == uid)).getD { id := uid, name := none, image := none }

/-- A post's read-markers ordered by `updatedAt` ascending
(the `readBy.orderBy` of `defaultPostSelect`); a stable sort models the
store's ordered relation fetch. -/
def postMarkersSorted (db : Db) (postId : String) : List DbReadPost :=
  List.insertionSort (fun a b => a.updatedAt ≤ b.updatedAt)
    (db.readPosts.filter (fun m => m.postId == postId))

instance : IsTotal DbReadPost (fun a b => a.updatedAt ≤ b.updatedAt) :=
  ⟨fun x y => Nat.le_total x.updatedAt y.updatedAt⟩

instance : IsTrans DbReadPost (fun a b => a.updatedAt ≤ b.updatedAt) :=
  ⟨fun _ _ _ => Nat.le_trans⟩

/-- The `readBy` relation of a post as `defaultPostSelect` fetches it:
the post's markers ordered by `updatedAt` ascending, each projected to
its user's `{ id, name }`. -/
def readByOf (db : Db) (postId : String) : List ReadByEntry :=
  (postMarkersSorted db postId).map
    (fun m => { user := { id := m.userId, name := (lookupUser db m.userId).name } })

/-- The `comments` relation of a post as `withCommentsPostSelect`
fetches it: the post's comments ordered by `createdAt` ascending, each
projected with its author's `{ id, name, image }`. -/
def commentsOf (db : Db) (postId : String) : List CommentRecord :=
  (List.insertionSort (fun a b => a.createdAt ≤ b.createdAt)
      (db.comments.filter (fun c => c.postId == postId))).map
    (fun c =>
      { id := c.id
        content := c.content
        contentHtml := c.contentHtml
        createdAt := c.createdAt
        author :=
          { id := c.authorId
            name := (lookupUser db c.authorId).name
            image := (lookupUser db c.authorId).image } })

/-- Apply `defaultPostSelect` to a post row. -/
def projectDefault (db : Db) (p : DbPost) : DefaultPostRecord :=
  { id := p.id
    title := p.title
    content := p.content
    contentHtml := p.contentHtml
    createdAt := p.createdAt
    updatedAt := p.updatedAt
    anonymous := p.anonymous
    authorId := p.authorId
    author :=
      { name := (lookupUser db p.authorId).name
        image := (lookupUser db p.authorId).image }
    readBy := readByOf db p.id
    count := { comments := (db.comments.filter (fun c => c.postId == p.id)).length } }

/-- Apply `withCommentsPostSelect` to a post row: the `defaultPostSelect`
columns plus the ordered `comments` list. -/
def projectWithComments (db : Db) (p : DbPost) : MyPostPayload :=
  let d := projectDefault db p
  { id := d.id
    title := d.title
    content := d.content
    contentHtml := d.contentHtml
    createdAt := d.createdAt
    updatedAt := d.updatedAt
    anonymous := d.anonymous
    authorId := d.authorId
    author := d.author
    readBy := d.readBy
    count := d.count
    comments := commentsOf db p.id }

/-! ## Query builder -/

/-- The seven values of `listPostsInputSchema`'s `filter`. -/
inductive Filter
  | all
  | draft
  | unread
  | replied
  | repliedByMe
  | unreplied
  | unrepliedByMe
  deriving DecidableEq

/-- The `order` input: Prisma sort direction for `createdAt`. -/
inductive SortOrder
  | asc
  | desc
  deriving DecidableEq

/-- The `orderBy: { createdAt: input.order }` comparison on post rows. -/
def sortLe (order : SortOrder) (a b : DbPost) : Prop :=
  match order with
  | .asc => a.createdAt ≤ b.createdAt
  | .desc => b.createdAt ≤ a.createdAt

instance (order : SortOrder) : DecidableRel (sortLe order) := fun a b => by
  cases order <;> (dsimp [sortLe]; infer_instance)

/-- Function `getFilterWhereClause`: translates the filter and the session user
into the `Prisma.PostWhereInput` predicate; switch with no default
fallthrough (the match is exhaustive over `Filter`). -/
def getFilterWhereClause (db : Db) (sessionUserId : String) :
    Filter → DbPost → Bool
  | .all => fun _ => true
  | .draft => fun p => p.published == false
  | .unread => fun p =>
      !(db.readPosts.any (fun m => m.postId == p.id && m.userId == sessionUserId))
  | .replied => fun p => db.comments.any (fun c => c.postId == p.id)
  | .repliedByMe => fun p =>
      db.comments.any (fun c => c.postId == p.id && c.authorId == sessionUserId)
  | .unreplied => fun p => !(db.comments.any (fun c => c.postId == p.id))
  | .unrepliedByMe => fun p =>
      !(db.comments.any (fun c => c.postId == p.id && c.authorId == sessionUserId))

/-! ## The list endpoint -/

/-- The `findMany` of `postRouter.list` before `cursor`/`take` are
applied: the `Post` rows satisfying the where-clause, ordered by
`createdAt` in the requested direction (stable in row order on ties). -/
def listPostsRaw (db : Db) (filter : Filter) (order : SortOrder)
    (sessionUserId : String) : List DbPost :=
  List.insertionSort (sortLe order)
    (db.posts.filter (getFilterWhereClause db sessionUserId filter))

/-- Prisma cursor positioning: with no cursor the whole ordered result,
with `cursor: { id: c }` the suffix starting at (and including) the row
whose id is `c`. -/
def suffixFrom (l : List DbPost) : Option String → List DbPost
  | none => l
  | some c => l.dropWhile (fun p => p.id != c)

/-- The response shape of `postRouter.list`. -/
structure ListResult where
  items : List ProcessedPost
  nextCursor : Option String
  deriving DecidableEq

/-- The page computation of `postRouter.list` on the ordered result `l`,
with `g` the per-item projection+processing: fetch `limit + 1` items
from the cursor position; when more than `limit` came back, pop the last
and use its id as `nextCursor`; map and reverse the rest. -/
def pageOf (l : List DbPost) (g : DbPost → ProcessedPost) (limit : Nat)
    (cursor : Option String) : ListResult :=
  if limit < ((suffixFrom l cursor).take (limit + 1)).length then
    { items := ((((suffixFrom l cursor).take (limit + 1)).dropLast).map g).reverse
      nextCursor := ((suffixFrom l cursor).take (limit + 1)).getLast?.map (fun p => p.id) }
  else
    { items := (((suffixFrom l cursor).take (limit + 1)).map g).reverse
      nextCursor := none }

/-- Endpoint `postRouter.list`: `limit` defaults to 50; fetches with
`withCommentsPostSelect`, the filter where-clause, the `createdAt`
ordering and the cursor; trims the over-fetched item into `nextCursor`;
processes each item with `processFeedbackItem` and reverses. -/
def listPosts (db : Db) (filter : Filter) (order : SortOrder)
    (limitInput : Option Nat) (cursor : Option String)
    (sessionUserId : String) : ListResult :=
  let limit := limitInput.getD 50
  pageOf (listPostsRaw db filter order sessionUserId)
    (fun p => processFeedbackItem (projectWithComments db p) sessionUserId)
    limit cursor

/-- Drive `postRouter.list` to exhaustion, feeding each `nextCursor`
back as the next call's `cursor`; `fuel` bounds the number of calls and
`none` is returned when it runs out before a final page. -/
def drivePages (db : Db) (filter : Filter) (order : SortOrder) (limit : Nat)
    (sessionUserId : String) : Nat → Option String → Option (List ListResult)
  | 0, _ => none
  | fuel + 1, cursor =>
      let r := listPosts db filter order (some limit) cursor sessionUserId
      match r.nextCursor with
      | none => some [r]
      | some c =>
          match drivePages db filter order limit sessionUserId fuel (some c) with
          | none => none
          | some rs => some (r :: rs)

/-! ## The remaining endpoints -/

/-- Response shape of `postRouter.unreadCount`. JS subtraction can go
negative, so `unreadCount` is an integer. -/
structure UnreadCountResult where
  unreadCount : Int
  totalCount : Nat
  deriving DecidableEq

/-- Endpoint `postRouter.unreadCount`: the session user's `readPosts` row count,
the count of posts with `hidden = false`, and their difference. -/
def unreadCount (db : Db) (sessionUserId : String) : UnreadCountResult :=
  let readCount := (db.readPosts.filter (fun m => m.userId == sessionUserId)).length
  let allVisiblePostsCount := (db.posts.filter (fun p => p.hidden == false)).length
  { unreadCount := (allVisiblePostsCount : Int) - (readCount : Int)
    totalCount := allVisiblePostsCount }

/-- The `TRPCError` codes thrown by this router. -/
inductive TRPCErrorCode
  | NOT_FOUND
  deriving DecidableEq

/-- A thrown `TRPCError`. -/
structure TRPCError where
  code : TRPCErrorCode
  message : String
  deriving DecidableEq

/-- A single-quote character, for building the NotFound message text. -/
def squote : String := String.singleton (Char.ofNat 39)

/-- Endpoint `postRouter.byId`: `findUnique` on the id with
`withCommentsPostSelect`; throws `NOT_FOUND` with the id-bearing message
when absent, otherwise post-processes for the session user. -/
def byId (db : Db) (id : String) (sessionUserId : String) :
    Except TRPCError ProcessedPost :=
  match db.posts.find? (fun p => p.id == id) with
  | none =>
      .error
        { code := .NOT_FOUND
          message := "No post with id " ++ squote ++ id ++ squote }
  | some post => .ok (processFeedbackItem (projectWithComments db post) sessionUserId)

/-- Modelled from the spec: the `addPostSchema` input shape (the schema
module is not among the source files). §6 gives
`add(title, content, anonymous?, ...)`; the content columns mirror the
post projection's raw/rendered pair. -/
structure AddPostInput where
  title : String
  content : String
  contentHtml : String
  anonymous : Bool
  deriving DecidableEq

/-- Endpoint `postRouter.add`: `post.create` with the input spread into `data`
and the author connected to the session user, selected with
`defaultPostSelect`. `newId`/`now` stand for the store-generated id and
timestamps; the `published`/`hidden` columns take the store's column
defaults, which the projection does not read. -/
def addPost (db : Db) (input : AddPostInput) (sessionUserId : String)
    (newId : String) (now : Nat) : Db × DefaultPostRecord :=
  let row : DbPost :=
    { id := newId
      title := input.title
      content := input.content
      contentHtml := input.contentHtml
      createdAt := now
      updatedAt := now
      anonymous := input.anonymous
      authorId := sessionUserId
      published := false
      hidden := false }
  let db2 : Db := { db with posts := db.posts ++ [row] }
  (db2, projectDefault db2 row)

/-- Endpoint `postRouter.setRead`: `readPosts.upsert` on the composite key
`postId_userId` — an empty update when the row exists, a create
connecting the session user and the post otherwise. Returns the new
store state and the upserted row. -/
def setRead (db : Db) (id : String) (sessionUserId : String) (now : Nat) :
    Db × DbReadPost :=
  match db.readPosts.find?
      (fun m => m.userId == sessionUserId && m.postId == id) with
  | some m => (db, m)
  | none =>
      let row : DbReadPost := { userId := sessionUserId, postId := id, updatedAt := now }
      ({ db with readPosts := db.readPosts ++ [row] }, row)

/-! ## Spec-side definitions (for refinement claims) -/

/-- The filter table of spec §4.1, written from the spec's words: which
posts each named filter admits, as a proposition over the store. -/
def specFilterPred (db : Db) (sessionUserId : String) :
    Filter → DbPost → Prop
  | .all => fun _ => True
  | .draft => fun p => p.published = false
  | .unread => fun p =>
      ¬ ∃ m ∈ db.readPosts, m.postId = p.id ∧ m.userId = sessionUserId
  | .replied => fun p => ∃ c ∈ db.comments, c.postId = p.id
  | .repliedByMe => fun p =>
      ∃ c ∈ db.comments, c.postId = p.id ∧ c.authorId = sessionUserId
  | .unreplied => fun p => ¬ ∃ c ∈ db.comments, c.postId = p.id
  | .unrepliedByMe => fun p =>
      ¬ ∃ c ∈ db.comments, c.postId = p.id ∧ c.authorId = sessionUserId

/-- Spec-side: duplicate removal keeping the first occurrence of each
key, in input order — the key order a JS object acquires when keys are
assigned in list order. -/
def dedupKeepFirst (l : List String) : List String :=
  l.foldl (fun acc x => if x ∈ acc then acc else acc ++ [x]) []

/-- Number of read-marker rows for one (user, post) pair. -/
def pairCount (ms : List DbReadPost) (uid pid : String) : Nat :=
  (ms.filter (fun m => m.userId == uid && m.postId == pid)).length

/-- The store invariant: at most one read-marker per (user, post) pair. -/
def atMostOnePerPair (ms : List DbReadPost) : Prop :=
  ∀ uid pid, pairCount ms uid pid ≤ 1

/-! ## Concrete fixtures -/

/-- A post row for concrete evaluations. -/
def mkPost (i : String) (t : Nat) : DbPost :=
  { id := i, title := "t", content := "c", contentHtml := "h", createdAt := t
    updatedAt := t, anonymous := false, authorId := "u", published := true
    hidden := false }

/-- A three-post store for pagination evaluations. -/
def exDb : Db :=
  { posts := [mkPost "a" 1, mkPost "b" 2, mkPost "c" 3]
    comments := []
    readPosts := []
    users := [{ id := "u", name := some "Uma", image := none }] }

/-- An anonymous payload for anonymization evaluations. -/
def wPayload : MyPostPayload :=
  { id := "p1", title := "T", content := "C", contentHtml := "H", createdAt := 1
    updatedAt := 1, anonymous := true, authorId := "alice"
    author := { name := some "Alice", image := some "av" }
    readBy := [], count := { comments := 0 }, comments := [] }

/-- The anonymous fixture extended with two read-marker entries. -/
def wReadPayload : MyPostPayload :=
  { wPayload with
      readBy := [{ user := { id := "u1", name := some "A" } },
        { user := { id := "u2", name := some "B" } }] }

/-- A store whose only post is hidden while the user holds a marker on
it: a read-marker outside the visible universe. -/
def negDb : Db :=
  { posts := [{ mkPost "x" 1 with hidden := true }]
    comments := []
    readPosts := [{ userId := "u", postId := "x", updatedAt := 0 }]
    users := [] }

/-! ## C1: anonymization of the author -/

/-- Claim C1: For an anonymous post, `processFeedbackItem` returns author name
`'Anonymous'` with a null image for any viewer other than the true
author, and `'Anonymous (you)'` with a null image when the true author
identifier equals the viewer's. -/
theorem anonymous_author_masked (p : MyPostPayload) (uid : String)
    (h : p.anonymous = true) :
    (processFeedbackItem p uid).author.name
        = some (if p.authorId = uid then "Anonymous (you)" else "Anonymous")
      ∧ (processFeedbackItem p uid).author.image = none := by
  unfold processFeedbackItem
  by_cases hid : p.authorId = uid <;> simp [h, hid]

/-- Witness for C1: the anonymous fixture payload viewed by `bob`
(not the author). -/
theorem anonymous_author_masked_witness :
    wPayload.anonymous = true ∧
      ((processFeedbackItem wPayload "bob").author.name
          = some (if wPayload.authorId = "bob" then "Anonymous (you)" else "Anonymous")
        ∧ (processFeedbackItem wPayload "bob").author.image = none) :=
  ⟨rfl, anonymous_author_masked wPayload "bob" rfl⟩

/-! ## C4: the filter where-clauses -/

/-- Claim C4: Each of the seven filters maps to exactly the predicate of the
spec's table (§4.1); the switch in `getFilterWhereClause` is exhaustive
over `Filter` with no default arm. -/
theorem filter_where_clause_correct (db : Db) (sessionUserId : String)
    (f : Filter) (p : DbPost) :
    getFilterWhereClause db sessionUserId f p = true
      ↔ specFilterPred db sessionUserId f p := by
  cases f <;>
    simp [getFilterWhereClause, specFilterPred, List.any_eq_true,
      Bool.and_eq_true, beq_iff_eq]

/-! ## C5: the frame of processFeedbackItem -/

/-- Claim C5: `processFeedbackItem` returns every field unchanged except the
author's name/image (rewritten only when `anonymous` is true) and
`readBy` (re-keyed): all scalar fields and the `comments` list — comment
authors included — pass through untouched even for anonymous posts, and
for a non-anonymous post the whole embedded author does too. The output
type `ProcessedPost` carries no `authorId` field: the destructured
identifier is only compared, never emitted. -/
theorem processFeedbackItem_frame (p : MyPostPayload) (uid : String) :
    (processFeedbackItem p uid).id = p.id
      ∧ (processFeedbackItem p uid).title = p.title
      ∧ (processFeedbackItem p uid).content = p.content
      ∧ (processFeedbackItem p uid).contentHtml = p.contentHtml
      ∧ (processFeedbackItem p uid).createdAt = p.createdAt
      ∧ (processFeedbackItem p uid).updatedAt = p.updatedAt
      ∧ (processFeedbackItem p uid).anonymous = p.anonymous
      ∧ (processFeedbackItem p uid).count = p.count
      ∧ (processFeedbackItem p uid).comments = p.comments
      ∧ (processFeedbackItem p uid).readBy = keyBy p.readBy (fun e => e.user.id)
      ∧ (p.anonymous = true ∨ (processFeedbackItem p uid).author = p.author) := by
  refine ⟨rfl, rfl, rfl, rfl, rfl, rfl, rfl, rfl, rfl, rfl, ?_⟩
  by_cases h : p.anonymous = true
  · exact Or.inl h
  · exact Or.inr (by unfold processFeedbackItem; simp [h])

/-! ## C6: the unread counter -/

/-- Claim C6: `unreadCount` returns `totalCount` = the number of posts with
`hidden = false` and `unreadCount` = that number minus the session
user's read-marker count, with no clamping: on a store whose only
read-marker points outside the visible universe the result is negative. -/
theorem unreadCount_formula (db : Db) (sessionUserId : String) :
    ((unreadCount db sessionUserId).totalCount
        = db.posts.countP (fun p => p.hidden == false)
      ∧ (unreadCount db sessionUserId).unreadCount
          = (db.posts.countP (fun p => p.hidden == false) : Int)
            - (db.readPosts.countP (fun m => m.userId == sessionUserId) : Int))
      ∧ (unreadCount negDb "u").unreadCount < 0 := by
  refine ⟨⟨?_, ?_⟩, by decide⟩ <;>
    simp [unreadCount, List.countP_eq_length_filter]

/-! ## C7: setRead idempotence -/

/-- Counting a pair's rows distributes over appending rows. -/
theorem pairCount_append (ms ms' : List DbReadPost) (uid pid : String) :
    pairCount (ms ++ ms') uid pid = pairCount ms uid pid + pairCount ms' uid pid := by
  simp [pairCount, List.filter_append]

/-- Claim C7: `setRead` is idempotent: from any store satisfying the
one-marker-per-pair invariant, a second call for the same user and post
leaves the store of the first call unchanged (the upsert takes the empty
update), the pair holds exactly one marker row after the call(s), and
the invariant is preserved. -/
theorem setRead_idempotent (db : Db) (id sessionUserId : String) (t1 t2 : Nat)
    (h : atMostOnePerPair db.readPosts) :
    (setRead (setRead db id sessionUserId t1).1 id sessionUserId t2).1
        = (setRead db id sessionUserId t1).1
      ∧ pairCount (setRead db id sessionUserId t1).1.readPosts sessionUserId id = 1
      ∧ atMostOnePerPair (setRead db id sessionUserId t1).1.readPosts := by
  cases hfind : db.readPosts.find?
      (fun m => m.userId == sessionUserId && m.postId == id) with
  | some m =>
      have hdb : (setRead db id sessionUserId t1).1 = db := by
        simp [setRead, hfind]
      have hone : pairCount db.readPosts sessionUserId id = 1 := by
        have hmem := List.mem_of_find?_eq_some hfind
        have hp := List.find?_some hfind
        have hf : m ∈ db.readPosts.filter
            (fun m => m.userId == sessionUserId && m.postId == id) :=
          List.mem_filter.mpr ⟨hmem, hp⟩
        have hpos : 0 < pairCount db.readPosts sessionUserId id := by
          have := List.length_pos_of_mem hf
          simpa [pairCount] using this
        have hle := h sessionUserId id
        omega
      have hdb2 : (setRead db id sessionUserId t2).1 = db := by
        simp [setRead, hfind]
      rw [hdb]
      exact ⟨hdb2, hone, h⟩
  | none =>
      have hdb : (setRead db id sessionUserId t1).1
          = { db with readPosts :=
                db.readPosts ++ [⟨sessionUserId, id, t1⟩] } := by
        simp [setRead, hfind]
      have hzero : pairCount db.readPosts sessionUserId id = 0 := by
        have hnone := List.find?_eq_none.mp hfind
        have : db.readPosts.filter
            (fun m => m.userId == sessionUserId && m.postId == id) = [] :=
          List.filter_eq_nil_iff.mpr hnone
        simp [pairCount, this]
      have hrowCount : pairCount [(⟨sessionUserId, id, t1⟩ : DbReadPost)]
          sessionUserId id = 1 := by
        simp [pairCount]
      have hfind2 : (db.readPosts ++ [(⟨sessionUserId, id, t1⟩ : DbReadPost)]).find?
          (fun m => m.userId == sessionUserId && m.postId == id)
          = some ⟨sessionUserId, id, t1⟩ := by
        rw [List.find?_append, hfind, Option.none_or]
        simp [List.find?_cons]
      rw [hdb]
      refine ⟨?_, ?_, ?_⟩
      · simp [setRead, hfind2]
      · show pairCount (db.readPosts ++ [⟨sessionUserId, id, t1⟩]) sessionUserId id = 1
        rw [pairCount_append, hzero, hrowCount]
      · intro u p
        show pairCount (db.readPosts ++ [⟨sessionUserId, id, t1⟩]) u p ≤ 1
        rw [pairCount_append]
        by_cases h1 : sessionUserId = u
        · by_cases h2 : id = p
          · subst h1; subst h2
            rw [hzero, hrowCount]
          · have hr : pairCount [(⟨sessionUserId, id, t1⟩ : DbReadPost)] u p = 0 := by
              simp [pairCount, h2]
            have := h u p
            omega
        · have hr : pairCount [(⟨sessionUserId, id, t1⟩ : DbReadPost)] u p = 0 := by
            simp [pairCount, h1]
          have := h u p
          omega

/-- Witness for C7: two `setRead` calls on the fixture store, which has
no marker yet. -/
theorem setRead_idempotent_witness :
    atMostOnePerPair exDb.readPosts ∧
      ((setRead (setRead exDb "a" "u" 5).1 "a" "u" 6).1 = (setRead exDb "a" "u" 5).1
        ∧ pairCount (setRead exDb "a" "u" 5).1.readPosts "u" "a" = 1
        ∧ atMostOnePerPair (setRead exDb "a" "u" 5).1.readPosts) := by
  have hinv : atMostOnePerPair exDb.readPosts := by
    intro u p
    simp [pairCount, exDb]
  exact ⟨hinv, setRead_idempotent exDb "a" "u" 5 6 hinv⟩

/-! ## C8: byId -/

/-- Claim C8: `byId` fails with `NOT_FOUND` — the message naming the requested
id — exactly when no post with that id exists, and on a `find?` hit it
returns the with-comments projection post-processed for the session
user. -/
theorem byId_spec (db : Db) (id sessionUserId : String) :
    (byId db id sessionUserId
        = .error { code := .NOT_FOUND
                   message := "No post with id " ++ squote ++ id ++ squote }
      ↔ ∀ p ∈ db.posts, p.id ≠ id)
    ∧ ∀ post, db.posts.find? (fun p => p.id == id) = some post →
        byId db id sessionUserId
          = .ok (processFeedbackItem (projectWithComments db post) sessionUserId) := by
  constructor
  · cases hf : db.posts.find? (fun p => p.id == id) with
    | none =>
        simp only [byId, hf]
        have := List.find?_eq_none.mp hf
        simpa using fun p hp => by simpa using this p hp
    | some post =>
        simp only [byId, hf]
        constructor
        · intro hcontra
          cases hcontra
        · intro hall
          have hmem := List.mem_of_find?_eq_some hf
          have hpid := List.find?_some hf
          exact absurd (by simpa using hpid) (hall post hmem)
  · intro post hfind
    simp [byId, hfind]

/-- Witness for C8: looking up post `a` of the fixture store. -/
theorem byId_spec_witness :
    exDb.posts.find? (fun p => p.id == "a") = some (mkPost "a" 1)
      ∧ byId exDb "a" "u"
          = .ok (processFeedbackItem (projectWithComments exDb (mkPost "a" 1)) "u") := by
  have hf : exDb.posts.find? (fun p => p.id == "a") = some (mkPost "a" 1) := by
    decide
  exact ⟨hf, (byId_spec exDb "a" "u").2 (mkPost "a" 1) hf⟩

/-! ## C9: re-keying of readBy -/

/-- Keys after a JS object assignment: unchanged when the key existed,
appended otherwise. -/
theorem assocSet_keys {α : Type} (acc : List (String × α)) (k : String) (v : α) :
    (assocSet acc k v).map Prod.fst
      = if k ∈ acc.map Prod.fst then acc.map Prod.fst
        else acc.map Prod.fst ++ [k] := by
  induction acc with
  | nil => simp [assocSet]
  | cons hd tl ih =>
      obtain ⟨k1, v1⟩ := hd
      by_cases hk : k1 = k
      · simp [assocSet, hk]
      · by_cases hmem : k ∈ tl.map Prod.fst <;>
          simp [assocSet, hk, ih, hmem, Ne.symm hk]

/-- The key list of the fold underlying `keyBy` is the fold underlying
`dedupKeepFirst` over the extracted keys. -/
theorem keyBy_keys_foldl {α : Type} (l : List α) (key : α → String) :
    ∀ acc : List (String × α),
      ((l.foldl (fun a x => assocSet a (key x) x) acc).map Prod.fst)
        = (l.map key).foldl (fun a k => if k ∈ a then a else a ++ [k])
            (acc.map Prod.fst) := by
  induction l with
  | nil => intro acc; simp
  | cons hd tl ih =>
      intro acc
      simp only [List.foldl_cons, List.map_cons]
      rw [ih, assocSet_keys]

/-- Looking up the just-assigned key returns the just-assigned value. -/
theorem lookup_assocSet_self {α : Type} (acc : List (String × α)) (k : String) (v : α) :
    (assocSet acc k v).lookup k = some v := by
  induction acc with
  | nil => simp [assocSet, List.lookup]
  | cons hd tl ih =>
      obtain ⟨k1, v1⟩ := hd
      by_cases h : k1 = k
      · subst h
        simp [assocSet, List.lookup]
      · have hb : (k == k1) = false := beq_eq_false_iff_ne.mpr (Ne.symm h)
        simp [assocSet, h, List.lookup, hb, ih]

/-- Assigning one key leaves lookups of other keys unchanged. -/
theorem lookup_assocSet_ne {α : Type} (acc : List (String × α)) (k a : String) (v : α)
    (h : a ≠ k) :
    (assocSet acc k v).lookup a = acc.lookup a := by
  have hb : (a == k) = false := beq_eq_false_iff_ne.mpr h
  induction acc with
  | nil => simp [assocSet, List.lookup, hb]
  | cons hd tl ih =>
      obtain ⟨k1, v1⟩ := hd
      by_cases h1 : k1 = k
      · subst h1
        simp [assocSet, List.lookup, hb]
      · by_cases h2 : k1 = a
        · subst h2
          simp [assocSet, h1, List.lookup]
        · have hb2 : (a == k1) = false := beq_eq_false_iff_ne.mpr (Ne.symm h2)
          simp [assocSet, h1, List.lookup, hb2, ih]

/-- Folding elements none of whose keys is `a` leaves the lookup of `a`
unchanged. -/
theorem lookup_keyBy_foldl_not_mem {α : Type} (key : α → String) (a : String) :
    ∀ (l : List α) (acc : List (String × α)), (∀ x ∈ l, key x ≠ a) →
      (l.foldl (fun ac x => assocSet ac (key x) x) acc).lookup a = acc.lookup a := by
  intro l
  induction l with
  | nil => intro acc _; rfl
  | cons hd tl ih =>
      intro acc hne
      simp only [List.foldl_cons]
      rw [ih _ (fun x hx => hne x (List.mem_cons_of_mem hd hx)),
        lookup_assocSet_ne _ _ _ _ (fun he => hne hd (List.mem_cons_self hd tl) he.symm)]

/-- Every key appearing in the input is present in the fold's mapping,
bound to an input element bearing that key. -/
theorem lookup_keyBy_foldl_mem {α : Type} (key : α → String) :
    ∀ (l : List α) (acc : List (String × α)) (a : String), a ∈ l.map key →
      ∃ v, v ∈ l ∧ key v = a
        ∧ (l.foldl (fun ac x => assocSet ac (key x) x) acc).lookup a = some v := by
  intro l
  induction l with
  | nil => intro acc a ha; simp at ha
  | cons hd tl ih =>
      intro acc a ha
      by_cases hmem : a ∈ tl.map key
      · obtain ⟨v, hv, hk, hl⟩ := ih (assocSet acc (key hd) hd) a hmem
        exact ⟨v, List.mem_cons_of_mem hd hv, hk, hl⟩
      · have hhd : key hd = a := by
          rcases (by simpa using ha : a = key hd ∨ a ∈ tl.map key) with h | h
          · exact h.symm
          · exact absurd h hmem
        refine ⟨hd, List.mem_cons_self hd tl, hhd, ?_⟩
        simp only [List.foldl_cons]
        rw [lookup_keyBy_foldl_not_mem key a tl _
            (fun x hx hxa => hmem (hxa ▸ List.mem_map_of_mem key hx))]
        rw [← hhd, lookup_assocSet_self]

/-- Claim C9: `processFeedbackItem` re-keys the `readBy` list — fetched
ordered ascending by marker update time — into a mapping keyed by the
marking user's id: the key sequence is the id sequence deduplicated to
first occurrences in input order, and every user id of the input list
looks up to an input entry bearing that id. -/
theorem readBy_rekeyed (p : MyPostPayload) (sessionUserId : String)
    (db : Db) (postId : String) :
    ((processFeedbackItem p sessionUserId).readBy.map Prod.fst
        = dedupKeepFirst (p.readBy.map (fun e => e.user.id)))
      ∧ (∀ a ∈ p.readBy.map (fun e => e.user.id),
          ∃ e, e ∈ p.readBy ∧ e.user.id = a
            ∧ (processFeedbackItem p sessionUserId).readBy.lookup a = some e)
      ∧ List.Pairwise (fun a b => a.updatedAt ≤ b.updatedAt)
          (postMarkersSorted db postId) := by
  refine ⟨?_, ?_, ?_⟩
  · show (keyBy p.readBy (fun e => e.user.id)).map Prod.fst = _
    rw [keyBy, keyBy_keys_foldl, dedupKeepFirst]
    rfl
  · intro a ha
    obtain ⟨e, he, hk, hl⟩ := lookup_keyBy_foldl_mem (fun e => e.user.id) p.readBy [] a ha
    exact ⟨e, he, hk, hl⟩
  · exact List.sorted_insertionSort _ _

/-- Witness theorem for C9: user `u1` is present and looks up to its
entry. -/
theorem readBy_rekeyed_witness :
    "u1" ∈ wReadPayload.readBy.map (fun e => e.user.id)
      ∧ ∃ e, e ∈ wReadPayload.readBy ∧ e.user.id = "u1"
          ∧ (processFeedbackItem wReadPayload "bob").readBy.lookup "u1" = some e :=
  ⟨by decide, (readBy_rekeyed wReadPayload "bob" exDb "a").2.1 "u1" (by decide)⟩

/-! ## C10: add -/

/-- Claim C10: `add` appends a post row owned by the session user and returns
the `defaultPostSelect` projection with no anonymization: even with the
input's `anonymous` flag set, the record carries the true `authorId` and
the author's true name and image. The return type `DefaultPostRecord`
has no `comments` field — only the `_count` summary, zero for the fresh
post. -/
theorem add_no_anonymization (db : Db) (input : AddPostInput)
    (sessionUserId newId : String) (now : Nat) (u : DbUser)
    (hU : db.users.find? (fun w => w.id == sessionUserId) = some u)
    (hFresh : ∀ c ∈ db.comments, c.postId ≠ newId) :
    (addPost db input sessionUserId newId now).2.authorId = sessionUserId
      ∧ (addPost db input sessionUserId newId now).2.author.name = u.name
      ∧ (addPost db input sessionUserId newId now).2.author.image = u.image
      ∧ (addPost db input sessionUserId newId now).2.anonymous = input.anonymous
      ∧ (addPost db input sessionUserId newId now).2.title = input.title
      ∧ (addPost db input sessionUserId newId now).2.content = input.content
      ∧ (addPost db input sessionUserId newId now).2.contentHtml = input.contentHtml
      ∧ (addPost db input sessionUserId newId now).2.count = { comments := 0 }
      ∧ ∃ row, (addPost db input sessionUserId newId now).1.posts = db.posts ++ [row]
          ∧ row.authorId = sessionUserId := by
  have hcount : db.comments.filter (fun c => c.postId == newId) = [] :=
    List.filter_eq_nil_iff.mpr (fun c hc => by simpa using hFresh c hc)
  refine ⟨rfl, ?_, ?_, rfl, rfl, rfl, rfl, ?_, ?_⟩
  · simp [addPost, projectDefault, lookupUser, hU]
  · simp [addPost, projectDefault, lookupUser, hU]
  · simp [addPost, projectDefault, hcount]
  · exact ⟨_, rfl, rfl⟩

/-- Witness for C10: adding an anonymous post to the fixture store as
user `u`. -/
theorem add_no_anonymization_witness :
    (exDb.users.find? (fun w => w.id == "u")
        = some { id := "u", name := some "Uma", image := none }
      ∧ ∀ c ∈ exDb.comments, c.postId ≠ "z")
    ∧ ((addPost exDb ⟨"T", "C", "H", true⟩ "u" "z" 9).2.authorId = "u"
        ∧ (addPost exDb ⟨"T", "C", "H", true⟩ "u" "z" 9).2.author.name = some "Uma"
        ∧ (addPost exDb ⟨"T", "C", "H", true⟩ "u" "z" 9).2.anonymous = true) := by
  refine ⟨⟨by decide, by decide⟩, ?_⟩
  have h := add_no_anonymization exDb ⟨"T", "C", "H", true⟩ "u" "z" 9
    { id := "u", name := some "Uma", image := none } (by decide) (by decide)
  exact ⟨h.1, h.2.1, h.2.2.2.1⟩

/-! ## C3: the single-call pagination contract -/

/-- Closed form of one `pageOf` call: the returned items are the first
`limit` records of the cursor window, processed and reversed, and
`nextCursor` is the id of the record at index `limit` of the window
exactly when the window holds more than `limit` records. -/
theorem pageOf_spec (l : List DbPost) (g : DbPost → ProcessedPost)
    (limit : Nat) (cursor : Option String) :
    (pageOf l g limit cursor).items
        = (((suffixFrom l cursor).take limit).map g).reverse
      ∧ (pageOf l g limit cursor).nextCursor
          = (if limit < (suffixFrom l cursor).length
             then ((suffixFrom l cursor)[limit]?).map (fun p => p.id)
             else none) := by
  by_cases h : limit < (suffixFrom l cursor).length
  · have hlen : ((suffixFrom l cursor).take (limit + 1)).length = limit + 1 := by
      simp only [List.length_take]
      omega
    have hcond : limit < ((suffixFrom l cursor).take (limit + 1)).length := by
      omega
    have hdrop : ((suffixFrom l cursor).take (limit + 1)).dropLast
        = (suffixFrom l cursor).take limit := by
      rw [List.dropLast_eq_take, hlen, List.take_take]
      simp
    have hlast : ((suffixFrom l cursor).take (limit + 1)).getLast?
        = (suffixFrom l cursor)[limit]? := by
      rw [List.getLast?_eq_getElem?, hlen, List.getElem?_take]
      simp
    rw [pageOf, if_pos hcond]
    exact ⟨by rw [hdrop], by rw [hlast, if_pos h]⟩
  · have hle : (suffixFrom l cursor).length ≤ limit := Nat.le_of_not_lt h
    have hcond : ¬ limit < ((suffixFrom l cursor).take (limit + 1)).length := by
      simp only [List.length_take]
      omega
    have htake1 : (suffixFrom l cursor).take (limit + 1) = suffixFrom l cursor :=
      List.take_of_length_le (by omega)
    have htake : (suffixFrom l cursor).take limit = suffixFrom l cursor :=
      List.take_of_length_le hle
    rw [pageOf, if_neg hcond]
    exact ⟨by rw [htake1, htake], by rw [if_neg h]⟩

/-- Claim C3: One `list` call: items are the first `limit` (default 50)
records of the cursor window — fetched `limit + 1` at a time — in
reverse of fetch order after per-item processing; `nextCursor` is
present, holding the id of the removed extra record, exactly when the
window exceeds `limit`; at most `limit` items are returned; and an
absent `limit` behaves as 50. -/
theorem list_single_call (db : Db) (f : Filter) (o : SortOrder)
    (limitInput : Option Nat) (cursor : Option String) (sessionUserId : String) :
    (listPosts db f o limitInput cursor sessionUserId).items
        = (((suffixFrom (listPostsRaw db f o sessionUserId) cursor).take
              (limitInput.getD 50)).map
            (fun p => processFeedbackItem (projectWithComments db p) sessionUserId)).reverse
      ∧ (listPosts db f o limitInput cursor sessionUserId).nextCursor
          = (if limitInput.getD 50
                < (suffixFrom (listPostsRaw db f o sessionUserId) cursor).length
             then ((suffixFrom (listPostsRaw db f o sessionUserId) cursor)[limitInput.getD 50]?).map
                    (fun p => p.id)
             else none)
      ∧ (listPosts db f o limitInput cursor sessionUserId).items.length
          ≤ limitInput.getD 50
      ∧ listPosts db f o none cursor sessionUserId
          = listPosts db f o (some 50) cursor sessionUserId := by
  have hp := pageOf_spec (listPostsRaw db f o sessionUserId)
    (fun p => processFeedbackItem (projectWithComments db p) sessionUserId)
    (limitInput.getD 50) cursor
  refine ⟨hp.1, hp.2, ?_, rfl⟩
  rw [show (listPosts db f o limitInput cursor sessionUserId).items
      = (pageOf (listPostsRaw db f o sessionUserId)
          (fun p => processFeedbackItem (projectWithComments db p) sessionUserId)
          (limitInput.getD 50) cursor).items from rfl, hp.1]
  simp only [List.length_reverse, List.length_map, List.length_take]
  omega

/-! ## C2: driving pagination to exhaustion -/

/-- With distinct ids, positioning at the id of the record at index `i`
lands exactly on index `i`. -/
theorem dropWhile_ne_get (l : List DbPost) (hN : (l.map (fun p => p.id)).Nodup) :
    ∀ (i : Nat) (h : i < l.length),
      l.dropWhile (fun p => p.id != (l.get ⟨i, h⟩).id) = l.drop i := by
  induction l with
  | nil => intro i h; exact absurd h (Nat.not_lt_zero i)
  | cons a t ih =>
      intro i h
      cases i with
      | zero =>
          rw [List.dropWhile_cons]
          simp
      | succ j =>
          have hj : j < t.length := Nat.lt_of_succ_lt_succ h
          have hN1 : a.id ∉ t.map (fun p => p.id) :=
            (List.nodup_cons.mp (by simpa using hN)).1
          have hN2 : (t.map (fun p => p.id)).Nodup :=
            (List.nodup_cons.mp (by simpa using hN)).2
          have hget : (a :: t).get ⟨j + 1, h⟩ = t.get ⟨j, hj⟩ := rfl
          have hmem : (t.get ⟨j, hj⟩).id ∈ t.map (fun p => p.id) :=
            List.mem_map_of_mem _ (List.get_mem t j hj)
          have hne : a.id ≠ (t.get ⟨j, hj⟩).id := fun he => hN1 (he ▸ hmem)
          rw [hget, List.dropWhile_cons, if_pos (by simpa using hne)]
          exact ih hN2 j hj

/-- Reversing each block of a concatenation permutes the whole. -/
theorem flatten_map_reverse_perm {α : Type} (ps : List (List α)) :
    ((ps.map List.reverse).flatten).Perm ps.flatten := by
  induction ps with
  | nil => exact List.Perm.refl _
  | cons a l ih =>
      simp only [List.map_cons, List.flatten_cons]
      exact (List.reverse_perm a).append ih

/-- One step of the drive loop. -/
theorem drivePages_succ (db : Db) (f : Filter) (o : SortOrder) (limit : Nat)
    (uid : String) (n : Nat) (c : Option String) :
    drivePages db f o limit uid (n + 1) c
      = (match (listPosts db f o (some limit) c uid).nextCursor with
         | none => some [listPosts db f o (some limit) c uid]
         | some cid =>
             match drivePages db f o limit uid n (some cid) with
             | none => none
             | some rs => some (listPosts db f o (some limit) c uid :: rs)) := rfl

/-- The drive loop stops when a call comes back without `nextCursor`. -/
theorem drivePages_succ_none (db : Db) (f : Filter) (o : SortOrder) (limit : Nat)
    (uid : String) (n : Nat) (c : Option String)
    (h : (listPosts db f o (some limit) c uid).nextCursor = none) :
    drivePages db f o limit uid (n + 1) c
      = some [listPosts db f o (some limit) c uid] := by
  rw [drivePages_succ, h]

/-- The drive loop follows a returned `nextCursor`. -/
theorem drivePages_succ_some (db : Db) (f : Filter) (o : SortOrder) (limit : Nat)
    (uid : String) (n : Nat) (c : Option String) (cid : String)
    (h : (listPosts db f o (some limit) c uid).nextCursor = some cid)
    (rs' : List ListResult)
    (h2 : drivePages db f o limit uid n (some cid) = some rs') :
    drivePages db f o limit uid (n + 1) c
      = some (listPosts db f o (some limit) c uid :: rs') := by
  rw [drivePages_succ, h]
  show (match drivePages db f o limit uid n (some cid) with
        | none => none
        | some rs => some (listPosts db f o (some limit) c uid :: rs))
      = some (listPosts db f o (some limit) c uid :: rs')
  rw [h2]

/-- Soundness of the drive loop: from a cursor positioned at index `p`
of the ordered filtered result, enough fuel drives `list` to a final
page, and the unreversed page items concatenate to exactly the records
from index `p` on, processed in order. -/
theorem drivePages_sound (db : Db) (f : Filter) (o : SortOrder) (uid : String)
    (limit : Nat) (hlim : 0 < limit)
    (hN : ((listPostsRaw db f o uid).map (fun p => p.id)).Nodup) :
    ∀ (fuel p : Nat) (c : Option String),
      suffixFrom (listPostsRaw db f o uid) c = (listPostsRaw db f o uid).drop p →
      (listPostsRaw db f o uid).length - p < fuel →
      ∃ rs, drivePages db f o limit uid fuel c = some rs
        ∧ (rs.map (fun r => r.items.reverse)).flatten
            = ((listPostsRaw db f o uid).drop p).map
                (fun q => processFeedbackItem (projectWithComments db q) uid)
        ∧ ∃ rl, rs.getLast? = some rl ∧ rl.nextCursor = none := by
  intro fuel
  induction fuel with
  | zero => intro p c _ hf; omega
  | succ n ih =>
      intro p c hs hf
      have hpage := pageOf_spec (listPostsRaw db f o uid)
        (fun q => processFeedbackItem (projectWithComments db q) uid) limit c
      have hcall : listPosts db f o (some limit) c uid
          = pageOf (listPostsRaw db f o uid)
              (fun q => processFeedbackItem (projectWithComments db q) uid)
              limit c := rfl
      by_cases h : limit < ((listPostsRaw db f o uid).drop p).length
      · -- a full page: the extra record's id becomes the next cursor
        have hpl : p + limit < (listPostsRaw db f o uid).length := by
          have hld := List.length_drop p (listPostsRaw db f o uid)
          omega
        have hgetd : ((listPostsRaw db f o uid).drop p)[limit]
            = (listPostsRaw db f o uid).get ⟨p + limit, hpl⟩ := by
          rw [List.getElem_drop]
          exact (List.get_eq_getElem (listPostsRaw db f o uid) ⟨p + limit, hpl⟩).symm
        have hnext : (listPosts db f o (some limit) c uid).nextCursor
            = some ((listPostsRaw db f o uid).get ⟨p + limit, hpl⟩).id := by
          rw [hcall, hpage.2, hs, if_pos h, List.getElem?_eq_getElem h, hgetd]
          rfl
        have hs' : suffixFrom (listPostsRaw db f o uid)
            (some ((listPostsRaw db f o uid).get ⟨p + limit, hpl⟩).id)
            = (listPostsRaw db f o uid).drop (p + limit) :=
          dropWhile_ne_get (listPostsRaw db f o uid) hN (p + limit) hpl
        have hf' : (listPostsRaw db f o uid).length - (p + limit) < n := by omega
        obtain ⟨rs', hdrive', hjoin', rl, hlast', hnone'⟩ :=
          ih (p + limit) (some ((listPostsRaw db f o uid).get ⟨p + limit, hpl⟩).id)
            hs' hf'
        refine ⟨listPosts db f o (some limit) c uid :: rs', ?_, ?_, ?_⟩
        · exact drivePages_succ_some db f o limit uid n c _ hnext rs' hdrive'
        · simp only [List.map_cons, List.flatten_cons]
          rw [hjoin', hcall, hpage.1, List.reverse_reverse, hs, ← List.map_append]
          congr 1
          rw [← List.drop_drop]
          exact List.take_append_drop limit ((listPostsRaw db f o uid).drop p)
        · cases rs' with
          | nil => simp at hlast'
          | cons b bs =>
              exact ⟨rl, by rw [List.getLast?_cons_cons]; exact hlast', hnone'⟩
      · -- the final page
        have hle : ((listPostsRaw db f o uid).drop p).length ≤ limit :=
          Nat.le_of_not_lt h
        have hnext : (listPosts db f o (some limit) c uid).nextCursor = none := by
          rw [hcall, hpage.2, hs, if_neg h]
        refine ⟨[listPosts db f o (some limit) c uid], ?_, ?_, ?_⟩
        · exact drivePages_succ_none db f o limit uid n c hnext
        · simp only [List.map_cons, List.map_nil, List.flatten_cons,
            List.flatten_nil, List.append_nil]
          rw [hcall, hpage.1, List.reverse_reverse, hs, List.take_of_length_le hle]
        · exact ⟨listPosts db f o (some limit) c uid, rfl, hnext⟩

/-- Claim C2, amended: For every filter, order and positive limit, over a
store whose ordered filtered result has distinct ids: feeding each
`nextCursor` back as the next `cursor` reaches, within `length + 1`
calls, a final response with no `nextCursor`, and the concatenation of
all responses' items is a permutation of — contains exactly the records
of, with no duplicates and no omissions — one unpaginated fetch with the
same filter and order. (The concatenation is not equal to the single
fetch as a sequence: each page is reversed individually.) -/
theorem pagination_complete (db : Db) (f : Filter) (o : SortOrder)
    (uid : String) (limit : Nat) (hlim : 0 < limit)
    (hN : ((listPostsRaw db f o uid).map (fun p => p.id)).Nodup) :
    ∃ rs,
      drivePages db f o limit uid ((listPostsRaw db f o uid).length + 1) none
          = some rs
        ∧ (∃ rl, rs.getLast? = some rl ∧ rl.nextCursor = none)
        ∧ ((rs.map (fun r => r.items)).flatten).Perm
            ((listPosts db f o (some ((listPostsRaw db f o uid).length + 1))
                none uid).items) := by
  obtain ⟨rs, hdrive, hjoin, hlast⟩ :=
    drivePages_sound db f o uid limit hlim hN
      ((listPostsRaw db f o uid).length + 1) 0 none rfl (by omega)
  refine ⟨rs, hdrive, hlast, ?_⟩
  have h1 : rs.map (fun r => r.items.reverse)
      = (rs.map (fun r => r.items)).map List.reverse := by
    rw [List.map_map]
    rfl
  have hsingle : (listPosts db f o
        (some ((listPostsRaw db f o uid).length + 1)) none uid).items
      = ((listPostsRaw db f o uid).map
          (fun q => processFeedbackItem (projectWithComments db q) uid)).reverse := by
    have hp := pageOf_spec (listPostsRaw db f o uid)
      (fun q => processFeedbackItem (projectWithComments db q) uid)
      ((listPostsRaw db f o uid).length + 1) none
    rw [show listPosts db f o (some ((listPostsRaw db f o uid).length + 1)) none uid
        = pageOf (listPostsRaw db f o uid)
            (fun q => processFeedbackItem (projectWithComments db q) uid)
            ((listPostsRaw db f o uid).length + 1) none from rfl, hp.1]
    rw [show suffixFrom (listPostsRaw db f o uid) none = listPostsRaw db f o uid
        from rfl]
    rw [List.take_of_length_le (by omega)]
  rw [hsingle]
  have step1 : ((rs.map (fun r => r.items)).flatten).Perm
      ((rs.map (fun r => r.items.reverse)).flatten) := by
    rw [h1]
    exact (flatten_map_reverse_perm (rs.map (fun r => r.items))).symm
  refine step1.trans ?_
  rw [hjoin, List.drop_zero]
  exact (List.reverse_perm _).symm

/-- Witness for C2: limit 2 over the three-post fixture store. -/
theorem pagination_complete_witness :
    (0 < 2 ∧ ((listPostsRaw exDb .all .asc "u").map (fun p => p.id)).Nodup)
      ∧ ∃ rs,
          drivePages exDb .all .asc 2 "u"
              ((listPostsRaw exDb .all .asc "u").length + 1) none = some rs
            ∧ (∃ rl, rs.getLast? = some rl ∧ rl.nextCursor = none)
            ∧ ((rs.map (fun r => r.items)).flatten).Perm
                ((listPosts exDb .all .asc
                    (some ((listPostsRaw exDb .all .asc "u").length + 1))
                    none "u").items) :=
  ⟨⟨by decide, by decide⟩, pagination_complete exDb .all .asc "u" 2 (by decide) (by decide)⟩

/-- Counterexample to C2 as stated: with three posts and limit 2, the
concatenation of the driven pages' items (ids `b, a, c`) is not equal as
a sequence to the single unpaginated fetch (ids `c, b, a`), because each
page is reversed individually. -/
theorem pagination_concat_ne_single_fetch :
    ((drivePages exDb .all .asc 2 "u" 4 none).map
        (fun rs => (rs.map (fun r => r.items)).flatten.map (fun it => it.id)))
        = some ["b", "a", "c"]
      ∧ ((listPosts exDb .all .asc (some 3) none "u").items.map (fun it => it.id))
          = ["c", "b", "a"]
      ∧ (drivePages exDb .all .asc 2 "u" 4 none).map
            (fun rs => (rs.map (fun r => r.items)).flatten)
          ≠ some ((listPosts exDb .all .asc (some 3) none "u").items) :=
  ⟨by decide, by decide, by decide⟩

end FeedbackBoard
